import Mathlib

/-!
Verification development for the voxel placement sandbox
(`src/src/BlockSystem.js`, `src/src/UserInterface.js`, and the two
`main.js` revisions in `src/unnamed/`).

Modelling conventions:
* JavaScript numbers that only ever hold exact grid-related values are
  modelled as rationals (`ℚ`); `Math.floor` is `Int.floor` and
  `Math.round` is `fun q => ⌊q + 1/2⌋` (JavaScript rounds halves toward
  positive infinity).
* JavaScript strings are modelled as `List Char`; template literals such
  as the occupancy keys are concatenations of the decimal renderings of
  the coordinates.
* A JavaScript `Map` is an association list whose `set` either replaces
  the entry holding the key or appends a fresh entry, `has` scans for the
  key, and `delete` erases the entry holding the key.  A JavaScript `Set`
  is a list with membership-guarded insertion.
* Rendering attributes (materials, shadows, wireframes) do not influence
  any of the verified behaviour and are not carried by the model; a block
  mesh is represented by its world position, which is the only datum the
  placement logic reads back.
-/

/-- A world-space position (`THREE.Vector3` restricted to the exact values
the placement logic manipulates). -/
structure Vec3 where
  x : ℚ
  y : ℚ
  z : ℚ
deriving DecidableEq

/-- An integer grid cell address. -/
structure GridPos where
  x : ℤ
  y : ℤ
  z : ℤ
deriving DecidableEq

/-- JavaScript `Math.round`: nearest integer, halves toward positive
infinity. -/
def jsRound (q : ℚ) : ℤ := ⌊q + 1 / 2⌋

namespace BlockSystem

/-- `this.blockSize = 1` from the `BlockSystem` constructor. -/
def blockSize : ℚ := 1

/-- `worldToGrid` (BlockSystem.js lines 103–109): each axis is divided by
the block size and floored. -/
def worldToGrid (position : Vec3) : GridPos :=
  { x := ⌊position.x / blockSize⌋
    y := ⌊position.y / blockSize⌋
    z := ⌊position.z / blockSize⌋ }

/-- `gridToWorld` (BlockSystem.js lines 112–118): the cell's geometric
center. -/
def gridToWorld (gridPos : GridPos) : Vec3 :=
  { x := gridPos.x * blockSize + blockSize / 2
    y := gridPos.y * blockSize + blockSize / 2
    z := gridPos.z * blockSize + blockSize / 2 }

/-- Decimal rendering of a natural number, as produced by JavaScript
number-to-string conversion for whole numbers. -/
def natChars (n : ℕ) : List Char :=
  if n = 0 then ['0'] else ((Nat.digits 10 n).reverse.map Nat.digitChar)

/-- Decimal rendering of an integer, as produced by the `${pos.x}`
template-literal interpolation for integer-valued numbers. -/
def numToChars (i : ℤ) : List Char :=
  if i < 0 then '-' :: natChars i.natAbs else natChars i.toNat

/-- `positionToKey` (BlockSystem.js lines 121–123): the string
`"x,y,z"`. -/
def positionToKey (pos : GridPos) : List Char :=
  numToChars pos.x ++ [','] ++ numToChars pos.y ++ [','] ++ numToChars pos.z

/-- The numeric value of a decimal digit character, `none` otherwise. -/
def charToDigit (c : Char) : Option ℕ :=
  if '0' ≤ c ∧ c ≤ '9' then some (c.toNat - '0'.toNat) else none

/-- Left-to-right accumulation of a decimal digit string. -/
def parseDigits (acc : ℕ) : List Char → Option ℕ
  | [] => some acc
  | c :: cs =>
    match charToDigit c with
    | some d => parseDigits (acc * 10 + d) cs
    | none => none

/-- JavaScript `Number(str)` on the fragment of strings the key codec
produces: an optional leading minus sign followed by decimal digits;
`none` models `NaN`. -/
def jsNumber (cs : List Char) : Option ℤ :=
  match cs with
  | [] => none
  | c :: rest =>
    if c = '-' then
      if rest.isEmpty then none
      else (parseDigits 0 rest).map (fun n => -(n : ℤ))
    else (parseDigits 0 (c :: rest)).map (fun n => (n : ℤ))

/-- JavaScript `String.prototype.split(',')`. -/
def splitComma : List Char → List (List Char)
  | [] => [[]]
  | c :: cs =>
    if c = ',' then [] :: splitComma cs
    else
      match splitComma cs with
      | [] => [[c]]
      | g :: gs => (c :: g) :: gs

/-- `keyToPosition` (BlockSystem.js lines 126–129): split the key on
commas and convert each part with `Number`; destructuring into `{x,y,z}`
succeeds when exactly three numeric parts are present. -/
def keyToPosition (key : List Char) : Option GridPos :=
  match (splitComma key).map jsNumber with
  | [some x, some y, some z] => some { x := x, y := y, z := z }
  | _ => none

/-- Occupancy keys. -/
abbrev Key := List Char

/-- `Map.prototype.has` for the `blocks` map. -/
def mapHas (m : List (Key × Vec3)) (k : Key) : Bool :=
  m.any fun e => decide (e.1 = k)

/-- `Map.prototype.set`: replace the entry holding the key, or append a
fresh entry. -/
def mapSet (m : List (Key × Vec3)) (k : Key) (v : Vec3) : List (Key × Vec3) :=
  if mapHas m k then m.map (fun e => if e.1 = k then (k, v) else e)
  else m ++ [(k, v)]

/-- `Map.prototype.delete`: erase the entry holding the key. -/
def mapDelete (m : List (Key × Vec3)) (k : Key) : List (Key × Vec3) :=
  m.eraseP fun e => decide (e.1 = k)

/-- Number of entries stored under a key. -/
def countKey (m : List (Key × Vec3)) (k : Key) : ℕ :=
  m.countP fun e => decide (e.1 = k)

/-- The `BlockSystem` state that the verified operations touch: the
`blocks` map from occupancy key to the placed mesh (represented by its
world position). -/
structure State where
  blocks : List (Key × Vec3)
deriving DecidableEq

/-- `hasBlock` (BlockSystem.js lines 132–134). -/
def hasBlock (st : State) (gridPos : GridPos) : Bool :=
  mapHas st.blocks (positionToKey gridPos)

/-- The world position `placeBlock` gives a block mesh for cell `gridPos`
(BlockSystem.js lines 186–192): the cell center shifted back by half a
block on each axis. -/
def meshPositionFor (gridPos : GridPos) : Vec3 :=
  let worldPos := gridToWorld gridPos
  { x := worldPos.x - blockSize / 2
    y := worldPos.y - blockSize / 2
    z := worldPos.z - blockSize / 2 }

/-- `placeBlock` (BlockSystem.js lines 171–203): reject when occupied,
otherwise store the new mesh under the cell's key.  Returns the JavaScript
boolean result together with the successor state. -/
def placeBlock (st : State) (gridPos : GridPos) : Bool × State :=
  if hasBlock st gridPos then (false, st)
  else
    (true, { blocks := mapSet st.blocks (positionToKey gridPos) (meshPositionFor gridPos) })

/-- `removeBlock` (BlockSystem.js lines 206–217): delete the entry if the
key is present. -/
def removeBlock (st : State) (gridPos : GridPos) : Bool × State :=
  let key := positionToKey gridPos
  if mapHas st.blocks key then (true, { blocks := mapDelete st.blocks key })
  else (false, st)

/-- `updateHighlightPosition` (BlockSystem.js lines 137–168): shift the
ray hit point by half a block along the face normal, snap to the grid,
and return the cell unless it is occupied.  The highlight mesh update is
rendering-only and not carried by the model. -/
def updateHighlightPosition (st : State) (intersection : Option Vec3) (faceNormal : Vec3) :
    Option GridPos :=
  match intersection with
  | none => none
  | some point =>
    let position : Vec3 :=
      { x := point.x + faceNormal.x * (blockSize / 2)
        y := point.y + faceNormal.y * (blockSize / 2)
        z := point.z + faceNormal.z * (blockSize / 2) }
    let gridPos := worldToGrid position
    if hasBlock st gridPos then none else some gridPos

/-- `handleClick` (BlockSystem.js lines 220–234): right click removes the
cell the raw hit point falls in; left click places into the cell obtained
by shifting the hit point half a block along the face normal. -/
def handleClick (st : State) (intersection : Option Vec3) (faceNormal : Vec3)
    (isRightClick : Bool) : Bool × State :=
  match intersection with
  | none => (false, st)
  | some point =>
    if isRightClick then removeBlock st (worldToGrid point)
    else
      let position : Vec3 :=
        { x := point.x + faceNormal.x * (blockSize / 2)
          y := point.y + faceNormal.y * (blockSize / 2)
          z := point.z + faceNormal.z * (blockSize / 2) }
      placeBlock st (worldToGrid position)

/-- The six axis-aligned unit face normals. -/
def isUnitNormal (n : Vec3) : Prop :=
  n = { x := 1, y := 0, z := 0 } ∨ n = { x := -1, y := 0, z := 0 } ∨
  n = { x := 0, y := 1, z := 0 } ∨ n = { x := 0, y := -1, z := 0 } ∨
  n = { x := 0, y := 0, z := 1 } ∨ n = { x := 0, y := 0, z := -1 }

/-- The neighbouring cell one step along an axis-aligned unit normal. -/
def offsetBy (g : GridPos) (n : Vec3) : GridPos :=
  { x := g.x + jsRound n.x, y := g.y + jsRound n.y, z := g.z + jsRound n.z }

/-- Membership in the face, in direction `n`, of the cube of side
`blockSize` centred at `meshPos` — the surface geometry a raycast against
a mesh positioned by `placeBlock` reports hits on. -/
def onRenderedFace (meshPos : Vec3) (n : Vec3) (p : Vec3) : Prop :=
  (p.x - meshPos.x) * n.x + (p.y - meshPos.y) * n.y + (p.z - meshPos.z) * n.z = blockSize / 2 ∧
  |p.x - meshPos.x| ≤ blockSize / 2 ∧
  |p.y - meshPos.y| ≤ blockSize / 2 ∧
  |p.z - meshPos.z| ≤ blockSize / 2

/-- Membership in the face, in direction `n`, of the half-open grid cell
`[g, g+1)³` that `worldToGrid` assigns to `g`: the coordinate along the
normal's axis sits on the face plane and the transverse coordinates lie
inside the cell. -/
def onCellFace (g : GridPos) (n : Vec3) (p : Vec3) : Prop :=
  (n.x ≠ 0 → p.x = g.x + (1 + n.x) / 2) ∧ (n.x = 0 → (g.x : ℚ) ≤ p.x ∧ p.x < g.x + 1) ∧
  (n.y ≠ 0 → p.y = g.y + (1 + n.y) / 2) ∧ (n.y = 0 → (g.y : ℚ) ≤ p.y ∧ p.y < g.y + 1) ∧
  (n.z ≠ 0 → p.z = g.z + (1 + n.z) / 2) ∧ (n.z = 0 → (g.z : ℚ) ≤ p.z ∧ p.z < g.z + 1)

end BlockSystem

namespace Builder

/-!
Model of the `BlockBuilder` application class in the current `main.js`
(`src/unnamed/part_001`).  Model identifiers are abstract (only equality
and catalog membership are ever used on them), so they are modelled by
naturals instead of JavaScript strings.
-/

/-- Abstract identifier of a block model (`model.id`). -/
abbrev ModelId := ℕ

/-- A scene-graph object as far as the placement logic reads it: its
world position (always integral for placed model scenes) and the
`userData.positionKey` attached by `addBlock` (absent on other nodes). -/
structure SceneNode where
  position : GridPos
  positionKey : Option BlockSystem.Key
deriving DecidableEq

/-- `getKey` (main.js lines 308–310): the string
`"round(x),round(y),round(z)"`; the template literal coincides with
`BlockSystem.positionToKey` applied to the rounded coordinates. -/
def getKey (pos : Vec3) : BlockSystem.Key :=
  BlockSystem.positionToKey { x := jsRound pos.x, y := jsRound pos.y, z := jsRound pos.z }

/-- JavaScript `Set.prototype.add`: append unless present. -/
def setAdd (s : List BlockSystem.Key) (k : BlockSystem.Key) : List BlockSystem.Key :=
  if k ∈ s then s else s ++ [k]

/-- JavaScript `Set.prototype.delete`: erase the element. -/
def setDelete (s : List BlockSystem.Key) (k : BlockSystem.Key) : List BlockSystem.Key :=
  s.erase k

/-- Outcome of the raycast `intersects[0]` as `updatePreview` consumes
it: either the invisible ground plane was hit, or a placed block was hit —
`target` is the top-level model scene the parent walk resolves the hit
node to, `point` the world-space hit point, and `worldNormal` the
transformed face normal. -/
inductive RayHit where
  | ground (point : Vec3)
  | blockFace (target : SceneNode) (point : Vec3) (worldNormal : Vec3)

/-- A DOM mouse event, reduced to the fields the handlers read.
`targetOnUI` models `event.target.closest('#block-selector, …') !== null`. -/
structure MouseEvent where
  clientX : ℚ
  clientY : ℚ
  button : ℕ
  targetOnUI : Bool

/-- The `BlockBuilder` fields the verified handlers touch. -/
structure State where
  occupiedPositions : List BlockSystem.Key
  blocksGroup : List SceneNode
  selectedModel : Option ModelId
  blockModels : List ModelId
  previewVisible : Bool
  previewPos : Vec3
  isDragging : Bool
  dragStartX : ℚ
  dragStartY : ℚ
  dragThreshold : ℚ
  clickedOnUI : Bool

/-- The constructor's initial field values (`occupiedPositions` empty,
no models loaded or selected, preview hidden, `dragThreshold = 5`). -/
def initialState : State :=
  { occupiedPositions := []
    blocksGroup := []
    selectedModel := none
    blockModels := []
    previewVisible := false
    previewPos := { x := 0, y := 0, z := 0 }
    isDragging := false
    dragStartX := 0
    dragStartY := 0
    dragThreshold := 5
    clickedOnUI := false }

/-- `this.blockModels[model.id] = gltf` in the loader callback: the model
becomes available for placement. -/
def loadModel (st : State) (m : ModelId) : State :=
  { st with blockModels := st.blockModels ++ [m] }

/-- `selectModel` (main.js lines 264–275): update the selected model (the
remaining body only toggles CSS classes). -/
def selectModel (st : State) (m : ModelId) : State :=
  { st with selectedModel := some m }

/-- `addBlock` (main.js lines 313–345): reject when no model is selected
or the selected model is not loaded; reject when the rounded position's
key is occupied; otherwise add a clone of the model at the rounded
position, record the key, and attach it as `userData.positionKey`. -/
def addBlock (st : State) (pos : Vec3) : Bool × State :=
  match st.selectedModel with
  | none => (false, st)
  | some m =>
    if m ∈ st.blockModels then
      let key := getKey pos
      if key ∈ st.occupiedPositions then (false, st)
      else
        let modelScene : SceneNode :=
          { position := { x := jsRound pos.x, y := jsRound pos.y, z := jsRound pos.z }
            positionKey := some key }
        (true,
          { st with
              blocksGroup := st.blocksGroup ++ [modelScene]
              occupiedPositions := setAdd st.occupiedPositions key })
    else (false, st)

/-- The `while` parent walk in `removeBlock` (main.js lines 350–353):
starting from the hit node, ascend the parent chain until the child of
`blocksGroup` is reached.  `ancestors` lists the node's proper ancestors
below `blocksGroup`, closest first; the walk returns the last of them, or
the node itself when it is already top-level. -/
def walkUp (object : SceneNode) : List SceneNode → SceneNode
  | [] => object
  | parentNode :: rest => walkUp parentNode rest

/-- `removeBlock` (main.js lines 348–362): resolve the hit object to its
top-level model scene, delete its `positionKey` from the occupancy set
when it has one, and remove it from the group. -/
def removeBlock (st : State) (object : SceneNode) (ancestors : List SceneNode) : State :=
  let topObject := walkUp object ancestors
  let st1 :=
    match topObject.positionKey with
    | some k => { st with occupiedPositions := setDelete st.occupiedPositions k }
    | none => st
  { st1 with blocksGroup := st1.blocksGroup.erase topObject }

/-- `updatePreview` (main.js lines 383–430): hide the preview when
nothing is hit; otherwise aim it at the ground cell under the hit point
with the vertical axis forced to 0, or at the hit block's position plus
the world face normal, rounded to the grid. -/
def updatePreview (st : State) (hit : Option RayHit) : State :=
  match hit with
  | none => { st with previewVisible := false }
  | some h =>
    let previewPos : Vec3 :=
      match h with
      | RayHit.ground point => { x := point.x, y := 0, z := point.z }
      | RayHit.blockFace target _point worldNormal =>
        { x := target.position.x + worldNormal.x
          y := target.position.y + worldNormal.y
          z := target.position.z + worldNormal.z }
    { st with
        previewPos :=
          { x := (jsRound previewPos.x : ℚ)
            y := (jsRound previewPos.y : ℚ)
            z := (jsRound previewPos.z : ℚ) }
        previewVisible := true }

/-- `onMouseMove` (main.js lines 365–380): flip `isDragging` once the
pointer strays beyond `dragThreshold` from the gesture start on either
screen axis, then refresh the preview. -/
def onMouseMove (st : State) (e : MouseEvent) (hit : Option RayHit) : State :=
  let st1 :=
    if st.isDragging = false ∧
        (|e.clientX - st.dragStartX| > st.dragThreshold ∨
          |e.clientY - st.dragStartY| > st.dragThreshold) then
      { st with isDragging := true }
    else st
  updatePreview st1 hit

/-- `onMouseDown` (main.js lines 433–457): record whether the gesture
started on the palette UI, record the drag start, clear `isDragging`; a
secondary-button press immediately removes the block owning the first
raycast hit (the raycast runs against `blocksGroup.children` only). -/
def onMouseDown (st : State) (e : MouseEvent)
    (removalHit : Option (SceneNode × List SceneNode)) : State :=
  let st1 :=
    { st with
        clickedOnUI := e.targetOnUI
        dragStartX := e.clientX
        dragStartY := e.clientY
        isDragging := false }
  if e.button = 2 then
    match removalHit with
    | some (object, ancestors) => removeBlock st1 object ancestors
    | none => st1
  else st1

/-- `onMouseUp` (main.js lines 459–473): place at the preview position
when the gesture was a primary-button click that neither dragged nor
started on the UI and the preview is visible; always reset the gesture
flags. -/
def onMouseUp (st : State) (e : MouseEvent) : State :=
  let st1 :=
    if e.button = 0 ∧ st.isDragging = false ∧ st.clickedOnUI = false then
      if st.previewVisible then (addBlock st st.previewPos).2 else st
    else st
  { st1 with isDragging := false, clickedOnUI := false }

/-- `onKeyDown` (main.js lines 476–485): the reset key removes every
child of `blocksGroup` and clears the occupancy set. -/
def onKeyDown (st : State) (isResetKey : Bool) : State :=
  if isResetKey then { st with blocksGroup := [], occupiedPositions := [] } else st

/-- Sequential processing of a run of `mousemove` events, each carrying
its raycast outcome. -/
def runMoves (st : State) : List (MouseEvent × Option RayHit) → State
  | [] => st
  | (e, h) :: rest => runMoves (onMouseMove st e h) rest

/-- One input event delivered to the application.  For a secondary-button
removal the raycast hit is a node inside some placed model, so the parent
walk lands on a child of `blocksGroup`; the constructor carries that
scene-validity fact. -/
inductive Step : State → State → Prop
  | pointerDownNone (st : State) (e : MouseEvent) : Step st (onMouseDown st e none)
  | pointerDownHit (st : State) (e : MouseEvent) (object : SceneNode)
      (ancestors : List SceneNode) (hmem : walkUp object ancestors ∈ st.blocksGroup) :
      Step st (onMouseDown st e (some (object, ancestors)))
  | pointerMove (st : State) (e : MouseEvent) (hit : Option RayHit) :
      Step st (onMouseMove st e hit)
  | pointerUp (st : State) (e : MouseEvent) : Step st (onMouseUp st e)
  | keyDown (st : State) (isResetKey : Bool) : Step st (onKeyDown st isResetKey)
  | modelLoaded (st : State) (m : ModelId) : Step st (loadModel st m)
  | modelSelected (st : State) (m : ModelId) : Step st (selectModel st m)

/-- States reachable from the freshly constructed application by input
events. -/
inductive Reachable : State → Prop
  | init : Reachable initialState
  | step {st st' : State} : Reachable st → Step st st' → Reachable st'

/-- The occupancy consistency invariant of claim C5: a key is in
`occupiedPositions` iff a placed model in the scene owns it, placed
models carry pairwise distinct keys, the set size equals the number of
placed models, and every placed model's key is the key of its cell. -/
def OccupancyInv (st : State) : Prop :=
  (∀ k, k ∈ st.occupiedPositions ↔ ∃ b ∈ st.blocksGroup, b.positionKey = some k) ∧
  (st.blocksGroup.map SceneNode.positionKey).Nodup ∧
  st.occupiedPositions.Nodup ∧
  st.occupiedPositions.length = st.blocksGroup.length ∧
  ∀ b ∈ st.blocksGroup, b.positionKey = some (BlockSystem.positionToKey b.position)

end Builder

/-- The world-space vector sitting exactly at a grid cell's integer
coordinates. -/
def vecOfGrid (g : GridPos) : Vec3 :=
  { x := (g.x : ℚ), y := (g.y : ℚ), z := (g.z : ℚ) }

namespace LegacyBuilder

/-- The ground-plane branch of `onMouseDown` in the earlier `main.js`
revision (`src/unnamed/part_000` lines 328–334 with the rounding done by
`addBlock` lines 244–249): the hit point with the vertical axis forced to
0, then rounded to the grid. -/
def groundPlacementCell (point : Vec3) : GridPos :=
  { x := jsRound point.x, y := jsRound 0, z := jsRound point.z }

end LegacyBuilder

/-- The empty `BlockSystem` occupancy state. -/
def emptySystem : BlockSystem.State := { blocks := [] }

/-- The origin cell. -/
def origin : GridPos := { x := 0, y := 0, z := 0 }

/-- The `BlockSystem` state reached by placing a single block at the
origin. -/
def oneBlockSystem : BlockSystem.State := (BlockSystem.placeBlock emptySystem origin).2

/-- A placed model scene at the origin cell, carrying the
`userData.positionKey` that `addBlock` attaches. -/
def originNode : Builder.SceneNode :=
  { position := origin, positionKey := some (BlockSystem.positionToKey origin) }

/-- A `BlockBuilder` state holding exactly the origin block. -/
def oneBlockBuilder : Builder.State :=
  { occupiedPositions := [BlockSystem.positionToKey origin]
    blocksGroup := [originNode]
    selectedModel := none
    blockModels := []
    previewVisible := false
    previewPos := { x := 0, y := 0, z := 0 }
    isDragging := false
    dragStartX := 0
    dragStartY := 0
    dragThreshold := 5
    clickedOnUI := false }

namespace BlockSystem

lemma charToDigit_digitChar {d : ℕ} (h : d < 10) : charToDigit (Nat.digitChar d) = some d := by
  interval_cases d <;> decide

lemma digitChar_ne_comma {d : ℕ} (h : d < 10) : Nat.digitChar d ≠ ',' := by
  interval_cases d <;> decide

lemma digitChar_ne_minus {d : ℕ} (h : d < 10) : Nat.digitChar d ≠ '-' := by
  interval_cases d <;> decide

lemma parseDigits_map_digitChar (ds : List ℕ) (h : ∀ d ∈ ds, d < 10) (acc : ℕ) :
    parseDigits acc (ds.map Nat.digitChar) = some (ds.foldl (fun a d => a * 10 + d) acc) := by
  induction ds generalizing acc with
  | nil => rfl
  | cons d t ih =>
    have hd : d < 10 := h d (List.mem_cons_self _ _)
    simp only [List.map_cons, parseDigits, charToDigit_digitChar hd, List.foldl_cons]
    exact ih (fun e he => h e (List.mem_cons_of_mem _ he)) _

lemma foldl_reverse_digits (ds : List ℕ) (acc : ℕ) :
    ds.reverse.foldl (fun a d => a * 10 + d) acc = acc * 10 ^ ds.length + Nat.ofDigits 10 ds := by
  induction ds generalizing acc with
  | nil => simp
  | cons d t ih =>
    simp only [List.reverse_cons, List.foldl_append, List.foldl_cons, List.foldl_nil, ih,
      Nat.ofDigits_cons, List.length_cons, pow_succ]
    ring

lemma parseDigits_natChars (n : ℕ) : parseDigits 0 (natChars n) = some n := by
  unfold natChars
  split
  · subst n; rfl
  · have h10 : ∀ d ∈ (Nat.digits 10 n).reverse, d < 10 := fun d hd =>
      Nat.digits_lt_base (by norm_num) (List.mem_reverse.mp hd)
    rw [parseDigits_map_digitChar _ h10, foldl_reverse_digits, Nat.ofDigits_digits]
    simp

lemma natChars_ne_nil (n : ℕ) : natChars n ≠ [] := by
  unfold natChars
  split
  · simp
  · simp [Nat.digits_ne_nil_iff_ne_zero, *]

lemma mem_natChars (n : ℕ) {c : Char} (hc : c ∈ natChars n) : c ≠ ',' ∧ c ≠ '-' := by
  unfold natChars at hc
  split at hc
  · simp only [List.mem_singleton] at hc
    subst hc; exact ⟨by decide, by decide⟩
  · simp only [List.mem_map, List.mem_reverse] at hc
    obtain ⟨d, hd, rfl⟩ := hc
    have hlt : d < 10 := Nat.digits_lt_base (by norm_num) hd
    exact ⟨digitChar_ne_comma hlt, digitChar_ne_minus hlt⟩

lemma jsNumber_numToChars (i : ℤ) : jsNumber (numToChars i) = some i := by
  unfold numToChars
  split
  · rename_i hneg
    obtain ⟨c, rest, hcr⟩ := List.exists_cons_of_ne_nil (natChars_ne_nil i.natAbs)
    have hie : (natChars i.natAbs).isEmpty = false := by rw [hcr]; rfl
    rw [hcr]
    simp only [jsNumber, if_pos rfl, ← hcr, hie, parseDigits_natChars, Bool.false_eq_true,
      if_false]
    simp only [Option.map_eq_map, Option.pure_def, Option.bind_eq_bind, Option.some_bind,
      Option.map_some', Option.some.injEq, ite_true]
    omega
  · rename_i hpos
    obtain ⟨c, rest, hcr⟩ := List.exists_cons_of_ne_nil (natChars_ne_nil i.toNat)
    have hcm : c ≠ '-' := (mem_natChars _ (hcr ▸ List.mem_cons_self c rest)).2
    rw [hcr]
    simp only [jsNumber, if_neg hcm, ← hcr, parseDigits_natChars]
    simp only [Option.map_eq_map, Option.pure_def, Option.bind_eq_bind, Option.some_bind,
      Option.map_some', Option.some.injEq]
    omega

lemma splitComma_of_not_mem {a : List Char} (h : ',' ∉ a) : splitComma a = [a] := by
  induction a with
  | nil => rfl
  | cons c t ih =>
    have hc : c ≠ ',' := fun e => h (e ▸ List.mem_cons_self _ _)
    have ht : ',' ∉ t := fun m => h (List.mem_cons_of_mem _ m)
    simp [splitComma, hc, ih ht]

lemma splitComma_append {a : List Char} (h : ',' ∉ a) (b : List Char) :
    splitComma (a ++ (',' :: b)) = a :: splitComma b := by
  induction a with
  | nil => simp [splitComma]
  | cons c t ih =>
    have hc : c ≠ ',' := fun e => h (e ▸ List.mem_cons_self _ _)
    have ht : ',' ∉ t := fun m => h (List.mem_cons_of_mem _ m)
    simp [splitComma, hc, ih ht]

lemma comma_not_mem_numToChars (i : ℤ) : ',' ∉ numToChars i := by
  intro h
  unfold numToChars at h
  split at h
  · rcases List.mem_cons.mp h with h' | h'
    · exact absurd h'.symm (by decide)
    · exact (mem_natChars _ h').1 rfl
  · exact (mem_natChars _ h).1 rfl

lemma keyToPosition_positionToKey (g : GridPos) : keyToPosition (positionToKey g) = some g := by
  have hx := comma_not_mem_numToChars g.x
  have hy := comma_not_mem_numToChars g.y
  have hz := comma_not_mem_numToChars g.z
  unfold keyToPosition positionToKey
  rw [show numToChars g.x ++ [','] ++ numToChars g.y ++ [','] ++ numToChars g.z
      = numToChars g.x ++ (',' :: (numToChars g.y ++ (',' :: numToChars g.z))) by simp]
  rw [splitComma_append hx, splitComma_append hy, splitComma_of_not_mem hz]
  simp [jsNumber_numToChars]

end BlockSystem

/-- Claim C7: key round-trip and injectivity — for every integer grid
coordinate `g`, `keyToPosition (positionToKey g) = g`, and two coordinates
produce the same occupancy key exactly when they are equal. -/
theorem c7_theorem :
    (∀ g : GridPos, BlockSystem.keyToPosition (BlockSystem.positionToKey g) = some g) ∧
    (∀ a b : GridPos, BlockSystem.positionToKey a = BlockSystem.positionToKey b ↔ a = b) := by
  refine ⟨BlockSystem.keyToPosition_positionToKey, fun a b => ⟨fun h => ?_, fun h => h ▸ rfl⟩⟩
  have ha := BlockSystem.keyToPosition_positionToKey a
  rw [h, BlockSystem.keyToPosition_positionToKey b] at ha
  exact (Option.some_inj.mp ha).symm

/-- Concrete run of C7 at the coordinate (3, -4, 5). -/
theorem c7_witness :
    BlockSystem.keyToPosition (BlockSystem.positionToKey { x := 3, y := -4, z := 5 }) =
      some { x := 3, y := -4, z := 5 } :=
  c7_theorem.1 { x := 3, y := -4, z := 5 }

namespace BlockSystem

lemma countKey_eq_zero {m : List (Key × Vec3)} {k : Key} (h : mapHas m k = false) :
    countKey m k = 0 := by
  simp only [mapHas, List.any_eq_false, decide_eq_true_eq] at h
  simp only [countKey, List.countP_eq_zero, decide_eq_true_eq]
  exact h

lemma countKey_pos {m : List (Key × Vec3)} {k : Key} (h : mapHas m k = true) :
    0 < countKey m k := by
  simp only [mapHas, List.any_eq_true, decide_eq_true_eq] at h
  obtain ⟨e, he, hek⟩ := h
  exact List.countP_pos_iff.mpr ⟨e, he, by simp [hek]⟩

lemma countKey_append_self (m : List (Key × Vec3)) (k : Key) (v : Vec3) :
    countKey (m ++ [(k, v)]) k = countKey m k + 1 := by
  simp [countKey, List.countP_append]

lemma mapHas_append_self (m : List (Key × Vec3)) (k : Key) (v : Vec3) :
    mapHas (m ++ [(k, v)]) k = true := by
  simp [mapHas, List.any_append]

lemma countKey_mapDelete_self (m : List (Key × Vec3)) (k : Key) :
    countKey (mapDelete m k) k = countKey m k - 1 := by
  induction m with
  | nil => rfl
  | cons a t ih =>
    by_cases ha : a.1 = k
    · simp [mapDelete, countKey, List.eraseP_cons, ha]
    · have h1 : mapDelete (a :: t) k = a :: mapDelete t k := by
        simp [mapDelete, List.eraseP_cons, ha]
      have h2 : ∀ l : List (Key × Vec3), countKey (a :: l) k = countKey l k := by
        intro l; simp [countKey, List.countP_cons, ha]
      rw [h1, h2, h2, ih]

end BlockSystem

open BlockSystem in
/-- Claim C3: idempotent rejection of double placement — from any state
in which cell `g` is empty, the first `placeBlock` succeeds, the second
fails without any state change, and afterwards the occupancy map holds
exactly one record for `g`. -/
theorem c3_theorem (st : BlockSystem.State) (g : GridPos)
    (h : BlockSystem.hasBlock st g = false) :
    (placeBlock st g).1 = true ∧
    (placeBlock (placeBlock st g).2 g).1 = false ∧
    (placeBlock (placeBlock st g).2 g).2 = (placeBlock st g).2 ∧
    countKey (placeBlock st g).2.blocks (positionToKey g) = 1 := by
  have hset : mapSet st.blocks (positionToKey g) (meshPositionFor g)
      = st.blocks ++ [(positionToKey g, meshPositionFor g)] := by
    simp only [mapSet, hasBlock] at h ⊢
    rw [if_neg (by simp [h])]
  have h1 : placeBlock st g
      = (true, { blocks := st.blocks ++ [(positionToKey g, meshPositionFor g)] }) := by
    simp only [placeBlock, h, Bool.false_eq_true, if_false, hset]
  have h2 : hasBlock ({ blocks := st.blocks ++ [(positionToKey g, meshPositionFor g)] } :
      BlockSystem.State) g = true := mapHas_append_self _ _ _
  refine ⟨by rw [h1], ?_, ?_, ?_⟩
  · rw [h1]
    simp [placeBlock, h2]
  · rw [h1]
    simp [placeBlock, h2]
  · rw [h1]
    simpa [countKey_append_self] using countKey_eq_zero (by simpa [hasBlock] using h)

/-- Concrete run of C3: placing twice at the origin from the empty
state. -/
theorem c3_witness :
    BlockSystem.hasBlock emptySystem origin = false ∧
    ((BlockSystem.placeBlock emptySystem origin).1 = true ∧
      (BlockSystem.placeBlock (BlockSystem.placeBlock emptySystem origin).2 origin).1 = false ∧
      (BlockSystem.placeBlock (BlockSystem.placeBlock emptySystem origin).2 origin).2 =
        (BlockSystem.placeBlock emptySystem origin).2 ∧
      BlockSystem.countKey (BlockSystem.placeBlock emptySystem origin).2.blocks
        (BlockSystem.positionToKey origin) = 1) :=
  ⟨rfl, c3_theorem emptySystem origin rfl⟩

open BlockSystem in
/-- Claim C4: removal symmetry and empty-cell rejection — placing at `g`
and then removing `g` leaves no record for `g` (and an empty map when the
map started empty), while removing from a state where `g` is unoccupied
returns failure and changes nothing. -/
theorem c4_theorem (st : BlockSystem.State) (g : GridPos)
    (hwf : BlockSystem.countKey st.blocks (BlockSystem.positionToKey g) ≤ 1) :
    countKey (removeBlock (placeBlock st g).2 g).2.blocks (positionToKey g) = 0 ∧
    (st.blocks = [] → (removeBlock (placeBlock st g).2 g).2.blocks = []) ∧
    (hasBlock st g = false → removeBlock st g = (false, st)) := by
  refine ⟨?_, ?_, ?_⟩
  · by_cases hhas : hasBlock st g = true
    · have hplace : placeBlock st g = (false, st) := by simp [placeBlock, hhas]
      rw [hplace]
      have hrem : removeBlock st g = (true, { blocks := mapDelete st.blocks (positionToKey g) }) := by
        simp only [removeBlock]
        rw [if_pos (by simpa [hasBlock] using hhas)]
      rw [hrem]
      show countKey (mapDelete st.blocks (positionToKey g)) (positionToKey g) = 0
      have h1 := countKey_pos (m := st.blocks) (k := positionToKey g)
        (by simpa [hasBlock] using hhas)
      have h2 := countKey_mapDelete_self st.blocks (positionToKey g)
      omega
    · have h : hasBlock st g = false := by simpa using hhas
      have hset : mapSet st.blocks (positionToKey g) (meshPositionFor g)
          = st.blocks ++ [(positionToKey g, meshPositionFor g)] := by
        simp only [mapSet, hasBlock] at h ⊢
        rw [if_neg (by simp [h])]
      have h1 : placeBlock st g
          = (true, { blocks := st.blocks ++ [(positionToKey g, meshPositionFor g)] }) := by
        simp only [placeBlock, h, Bool.false_eq_true, if_false, hset]
      rw [h1]
      have hhas' := mapHas_append_self st.blocks (positionToKey g) (meshPositionFor g)
      have hrem : removeBlock ({ blocks := st.blocks ++ [(positionToKey g, meshPositionFor g)] } :
          BlockSystem.State) g = (true,
            { blocks := mapDelete (st.blocks ++ [(positionToKey g, meshPositionFor g)])
                (positionToKey g) }) := by
        simp only [removeBlock]
        rw [if_pos hhas']
      rw [hrem]
      show countKey (mapDelete (st.blocks ++ [(positionToKey g, meshPositionFor g)])
        (positionToKey g)) (positionToKey g) = 0
      have h2 := countKey_mapDelete_self (st.blocks ++ [(positionToKey g, meshPositionFor g)])
        (positionToKey g)
      have h3 := countKey_append_self st.blocks (positionToKey g) (meshPositionFor g)
      have h4 := countKey_eq_zero (m := st.blocks) (k := positionToKey g)
        (by simpa [hasBlock] using h)
      omega
  · intro hempty
    have h : hasBlock st g = false := by simp [hasBlock, mapHas, hempty]
    have hset : mapSet st.blocks (positionToKey g) (meshPositionFor g)
        = st.blocks ++ [(positionToKey g, meshPositionFor g)] := by
      simp only [mapSet, hasBlock] at h ⊢
      rw [if_neg (by simp [h])]
    have h1 : placeBlock st g
        = (true, { blocks := st.blocks ++ [(positionToKey g, meshPositionFor g)] }) := by
      simp only [placeBlock, h, Bool.false_eq_true, if_false, hset]
    rw [h1, hempty]
    simp [removeBlock, mapHas, mapDelete, List.eraseP_cons]
  · intro h
    simp only [removeBlock]
    rw [if_neg (by simpa [hasBlock] using h)]

/-- Concrete run of C4 at the origin from the empty state. -/
theorem c4_witness :
    BlockSystem.countKey emptySystem.blocks (BlockSystem.positionToKey origin) ≤ 1 ∧
    (BlockSystem.countKey
        (BlockSystem.removeBlock (BlockSystem.placeBlock emptySystem origin).2 origin).2.blocks
        (BlockSystem.positionToKey origin) = 0 ∧
      (emptySystem.blocks = [] →
        (BlockSystem.removeBlock (BlockSystem.placeBlock emptySystem origin).2 origin).2.blocks
          = []) ∧
      (BlockSystem.hasBlock emptySystem origin = false →
        BlockSystem.removeBlock emptySystem origin = (false, emptySystem))) :=
  ⟨by decide, c4_theorem emptySystem origin (by decide)⟩

namespace BlockSystem

lemma floor_center_add {a : ℤ} {e : ℚ} (h : |e| < 1 / 2) : ⌊(a : ℚ) * 1 + 1 / 2 + e⌋ = a := by
  rw [abs_lt] at h
  rw [Int.floor_eq_iff]
  constructor
  · linarith
  · linarith

end BlockSystem

open BlockSystem in
/-- Claim C6: cell containment — perturbing a cell's world center by less
than half a cell on each axis and snapping back to the grid recovers the
cell. -/
theorem c6_theorem (g : GridPos) (ε : Vec3)
    (hx : |ε.x| < BlockSystem.blockSize / 2)
    (hy : |ε.y| < BlockSystem.blockSize / 2)
    (hz : |ε.z| < BlockSystem.blockSize / 2) :
    worldToGrid
      { x := (gridToWorld g).x + ε.x
        y := (gridToWorld g).y + ε.y
        z := (gridToWorld g).z + ε.z } = g := by
  obtain ⟨gx, gy, gz⟩ := g
  simp only [blockSize] at hx hy hz
  simp only [worldToGrid, gridToWorld, blockSize, div_one, GridPos.mk.injEq]
  exact ⟨floor_center_add hx, floor_center_add hy, floor_center_add hz⟩

/-- Concrete run of C6 at g = (5, -3, 2) with offsets (1/4, -1/4, 0). -/
theorem c6_witness :
    (|(1 : ℚ) / 4| < BlockSystem.blockSize / 2) ∧
    (|(-1 : ℚ) / 4| < BlockSystem.blockSize / 2) ∧
    (|(0 : ℚ)| < BlockSystem.blockSize / 2) ∧
    BlockSystem.worldToGrid
      { x := (BlockSystem.gridToWorld { x := 5, y := -3, z := 2 }).x + 1 / 4
        y := (BlockSystem.gridToWorld { x := 5, y := -3, z := 2 }).y + -1 / 4
        z := (BlockSystem.gridToWorld { x := 5, y := -3, z := 2 }).z + 0 } =
      { x := 5, y := -3, z := 2 } := by
  have habs : ∀ q : ℚ, -(1 / 2) < q → q < 1 / 2 → |q| < BlockSystem.blockSize / 2 := by
    intro q h1 h2
    rw [BlockSystem.blockSize, abs_lt]
    constructor <;> linarith [h1, h2]
  refine ⟨habs _ (by norm_num) (by norm_num), habs _ (by norm_num) (by norm_num),
    habs _ (by norm_num) (by norm_num), ?_⟩
  exact c6_theorem { x := 5, y := -3, z := 2 } { x := 1 / 4, y := -1 / 4, z := 0 }
    (habs _ (by norm_num) (by norm_num)) (habs _ (by norm_num) (by norm_num))
    (habs _ (by norm_num) (by norm_num))

lemma positionToKey_injective (a b : GridPos)
    (h : BlockSystem.positionToKey a = BlockSystem.positionToKey b) : a = b := by
  have ha := BlockSystem.keyToPosition_positionToKey a
  rw [h, BlockSystem.keyToPosition_positionToKey b] at ha
  exact (Option.some_inj.mp ha).symm

lemma abs_le_half {q : ℚ} (h1 : -(1 / 2) ≤ q) (h2 : q ≤ 1 / 2) :
    |q| ≤ BlockSystem.blockSize / 2 := by
  rw [BlockSystem.blockSize, abs_le]
  exact ⟨by linarith, by linarith⟩

lemma jsRound_int_add (a : ℤ) (q : ℚ) : jsRound ((a : ℚ) + q) = a + jsRound q := by
  rw [jsRound, jsRound, add_assoc, Int.floor_int_add]

lemma jsRound_zero : jsRound 0 = 0 := by norm_num [jsRound]

lemma jsRound_one : jsRound 1 = 1 := by norm_num [jsRound]

lemma jsRound_neg_one : jsRound (-1) = -1 := by norm_num [jsRound]

lemma floor_eq_of_bounds {a : ℤ} {q : ℚ} (h1 : (a : ℚ) ≤ q) (h2 : q < a + 1) : ⌊q⌋ = a :=
  Int.floor_eq_iff.mpr ⟨h1, h2⟩

lemma floor_shift {a : ℤ} {q c : ℚ} (hc : c = -1 ∨ c = 0 ∨ c = 1)
    (halong : c ≠ 0 → q = a + (1 + c) / 2)
    (htrans : c = 0 → (a : ℚ) ≤ q ∧ q < a + 1) :
    ⌊q + c * (1 / 2)⌋ = a + jsRound c := by
  have h12 : ⌊(1 : ℚ) / 2⌋ = 0 := by norm_num
  rcases hc with rfl | rfl | rfl
  · rw [halong (by norm_num), jsRound_neg_one,
      show ((a : ℚ) + (1 + -1) / 2 + -1 * (1 / 2)) = ((a - 1 : ℤ) : ℚ) + 1 / 2 by push_cast; ring,
      Int.floor_int_add, h12]
    omega
  · obtain ⟨hl, hr⟩ := htrans rfl
    rw [jsRound_zero, add_zero, show q + 0 * (1 / 2 : ℚ) = q by ring]
    exact floor_eq_of_bounds hl hr
  · rw [halong (by norm_num), jsRound_one,
      show ((a : ℚ) + (1 + 1) / 2 + 1 * (1 / 2)) = ((a + 1 : ℤ) : ℚ) + 1 / 2 by push_cast; ring,
      Int.floor_int_add, h12]
    omega

lemma updateHighlightPosition_reduce (st : BlockSystem.State) (p n : Vec3) :
    BlockSystem.updateHighlightPosition st (some p) n =
      if BlockSystem.hasBlock st (BlockSystem.worldToGrid
          { x := p.x + n.x * (BlockSystem.blockSize / 2)
            y := p.y + n.y * (BlockSystem.blockSize / 2)
            z := p.z + n.z * (BlockSystem.blockSize / 2) }) = true then none
      else some (BlockSystem.worldToGrid
          { x := p.x + n.x * (BlockSystem.blockSize / 2)
            y := p.y + n.y * (BlockSystem.blockSize / 2)
            z := p.z + n.z * (BlockSystem.blockSize / 2) }) := rfl

open BlockSystem in
lemma worldToGrid_face_shift {g : GridPos} {n p : Vec3} (hn : isUnitNormal n)
    (hface : onCellFace g n p) :
    worldToGrid
        { x := p.x + n.x * (blockSize / 2)
          y := p.y + n.y * (blockSize / 2)
          z := p.z + n.z * (blockSize / 2) } = offsetBy g n := by
  have hcx : n.x = -1 ∨ n.x = 0 ∨ n.x = 1 := by
    rcases hn with rfl | rfl | rfl | rfl | rfl | rfl <;> norm_num
  have hcy : n.y = -1 ∨ n.y = 0 ∨ n.y = 1 := by
    rcases hn with rfl | rfl | rfl | rfl | rfl | rfl <;> norm_num
  have hcz : n.z = -1 ∨ n.z = 0 ∨ n.z = 1 := by
    rcases hn with rfl | rfl | rfl | rfl | rfl | rfl <;> norm_num
  obtain ⟨h1, h2, h3, h4, h5, h6⟩ := hface
  simp only [worldToGrid, blockSize, div_one, offsetBy, GridPos.mk.injEq]
  exact ⟨floor_shift hcx h1 h2, floor_shift hcy h3 h4, floor_shift hcz h5 h6⟩

open BlockSystem in
/-- Claim C1 (amended): in the current `main.js`, a preview for a hit on a
placed block's face aims at the block's cell offset one step along the
face normal, independently of the hit point; in `BlockSystem`, shifting
the hit point half a block along the face normal and flooring yields the
cell's neighbour along the normal for every hit point on the face of the
half-open grid cell `[g, g+1)³` — hits on the offset rendered mesh are
not covered and resolve differently (see the counterexample). -/
theorem c1_theorem (st : BlockSystem.State) (bst : Builder.State) (g : GridPos)
    (obj : Builder.SceneNode) (pt p n : Vec3) (hn : isUnitNormal n)
    (hface : onCellFace g n p)
    (hocc : hasBlock st (offsetBy g n) = false) :
    ((Builder.updatePreview bst (some (Builder.RayHit.blockFace obj pt n))).previewPos
        = vecOfGrid (offsetBy obj.position n) ∧
      (Builder.updatePreview bst (some (Builder.RayHit.blockFace obj pt n))).previewVisible
        = true) ∧
    updateHighlightPosition st (some p) n = some (offsetBy g n) := by
  refine ⟨⟨?_, by simp [Builder.updatePreview]⟩, ?_⟩
  · simp only [Builder.updatePreview, vecOfGrid, offsetBy, Vec3.mk.injEq]
    refine ⟨?_, ?_, ?_⟩ <;> rw [jsRound_int_add]
  · rw [updateHighlightPosition_reduce, worldToGrid_face_shift hn hface, hocc]
    simp

lemma oneBlockSystem_blocks :
    oneBlockSystem.blocks
      = [(BlockSystem.positionToKey origin, BlockSystem.meshPositionFor origin)] := rfl

lemma hasBlock_oneBlockSystem_ne {c : GridPos} (hne : origin ≠ c) :
    BlockSystem.hasBlock oneBlockSystem c = false := by
  have hk : ¬ (BlockSystem.positionToKey origin = BlockSystem.positionToKey c) :=
    fun h => hne (positionToKey_injective _ _ h)
  simp [BlockSystem.hasBlock, BlockSystem.mapHas, oneBlockSystem_blocks, hk]

lemma hasBlock_oneBlockSystem_origin : BlockSystem.hasBlock oneBlockSystem origin = true := by
  simp [BlockSystem.hasBlock, BlockSystem.mapHas, oneBlockSystem_blocks]

lemma worldToGrid_eval {p : Vec3} {a b c : ℤ}
    (h1 : (a : ℚ) ≤ p.x ∧ p.x < a + 1) (h2 : (b : ℚ) ≤ p.y ∧ p.y < b + 1)
    (h3 : (c : ℚ) ≤ p.z ∧ p.z < c + 1) :
    BlockSystem.worldToGrid p = { x := a, y := b, z := c } := by
  simp only [BlockSystem.worldToGrid, BlockSystem.blockSize, div_one, GridPos.mk.injEq]
  exact ⟨floor_eq_of_bounds h1.1 h1.2, floor_eq_of_bounds h2.1 h2.2,
    floor_eq_of_bounds h3.1 h3.2⟩

lemma onRenderedFace_top_origin {px pz : ℚ} (h1 : -(1 / 2) ≤ px) (h2 : px ≤ 1 / 2)
    (h3 : -(1 / 2) ≤ pz) (h4 : pz ≤ 1 / 2) :
    BlockSystem.onRenderedFace (BlockSystem.meshPositionFor origin) { x := 0, y := 1, z := 0 }
      { x := px, y := 1 / 2, z := pz } := by
  have hmesh : BlockSystem.meshPositionFor origin = { x := 0, y := 0, z := 0 } := by
    norm_num [BlockSystem.meshPositionFor, BlockSystem.gridToWorld, BlockSystem.blockSize,
      origin, Vec3.mk.injEq]
  rw [hmesh]
  simp only [BlockSystem.onRenderedFace]
  refine ⟨by norm_num [BlockSystem.blockSize], ?_, ?_, ?_⟩
  · exact abs_le_half (by linarith) (by linarith)
  · exact abs_le_half (by norm_num) (by norm_num)
  · exact abs_le_half (by linarith) (by linarith)

/-- Claim C1, as stated, is false on `BlockSystem`: the block occupying
cell (0,0,0) renders as the cube centred at the origin, and two hit
points on its top face (face normal (0,1,0)) resolve to different cells —
one of them is not the neighbour (0,1,0) — so the resolved target is not
independent of where on the face the hit lies. -/
theorem c1_counterexample :
    BlockSystem.onRenderedFace (BlockSystem.meshPositionFor origin) { x := 0, y := 1, z := 0 }
      { x := -(1 / 4), y := 1 / 2, z := -(1 / 4) } ∧
    BlockSystem.onRenderedFace (BlockSystem.meshPositionFor origin) { x := 0, y := 1, z := 0 }
      { x := 1 / 4, y := 1 / 2, z := 1 / 4 } ∧
    BlockSystem.updateHighlightPosition oneBlockSystem
        (some { x := -(1 / 4), y := 1 / 2, z := -(1 / 4) }) { x := 0, y := 1, z := 0 }
      = some { x := -1, y := 1, z := -1 } ∧
    BlockSystem.updateHighlightPosition oneBlockSystem
        (some { x := 1 / 4, y := 1 / 2, z := 1 / 4 }) { x := 0, y := 1, z := 0 }
      = some { x := 0, y := 1, z := 0 } ∧
    ({ x := -1, y := 1, z := -1 } : GridPos) ≠ { x := 0, y := 1, z := 0 } := by
  refine ⟨onRenderedFace_top_origin (by norm_num) (by norm_num) (by norm_num) (by norm_num),
    onRenderedFace_top_origin (by norm_num) (by norm_num) (by norm_num) (by norm_num),
    ?_, ?_, by decide⟩
  · simp only [BlockSystem.updateHighlightPosition]
    rw [worldToGrid_eval (a := -1) (b := 1) (c := -1)
        ⟨by norm_num [BlockSystem.blockSize], by norm_num [BlockSystem.blockSize]⟩
        ⟨by norm_num [BlockSystem.blockSize], by norm_num [BlockSystem.blockSize]⟩
        ⟨by norm_num [BlockSystem.blockSize], by norm_num [BlockSystem.blockSize]⟩,
      hasBlock_oneBlockSystem_ne (by decide)]
    simp
  · simp only [BlockSystem.updateHighlightPosition]
    rw [worldToGrid_eval (a := 0) (b := 1) (c := 0)
        ⟨by norm_num [BlockSystem.blockSize], by norm_num [BlockSystem.blockSize]⟩
        ⟨by norm_num [BlockSystem.blockSize], by norm_num [BlockSystem.blockSize]⟩
        ⟨by norm_num [BlockSystem.blockSize], by norm_num [BlockSystem.blockSize]⟩,
      hasBlock_oneBlockSystem_ne (by decide)]
    simp

lemma offsetBy_origin_up :
    BlockSystem.offsetBy origin { x := 0, y := 1, z := 0 } = { x := 0, y := 1, z := 0 } := by
  simp [BlockSystem.offsetBy, origin, jsRound_zero, jsRound_one]

lemma offsetBy_origin_px :
    BlockSystem.offsetBy origin { x := 1, y := 0, z := 0 } = { x := 1, y := 0, z := 0 } := by
  simp [BlockSystem.offsetBy, origin, jsRound_zero, jsRound_one]

/-- Concrete run of C1 (amended): with the origin cell occupied, a top
face hit resolves to (0,1,0), a +x face hit resolves to (1,0,0), and the
builder preview aims one step along the normal from the hit block. -/
theorem c1_witness :
    BlockSystem.isUnitNormal { x := 0, y := 1, z := 0 } ∧
    BlockSystem.onCellFace origin { x := 0, y := 1, z := 0 }
      { x := 1 / 2, y := 1, z := 1 / 2 } ∧
    (Builder.updatePreview Builder.initialState
        (some (Builder.RayHit.blockFace originNode { x := 1 / 2, y := 1, z := 1 / 2 }
          { x := 0, y := 1, z := 0 }))).previewPos = vecOfGrid { x := 0, y := 1, z := 0 } ∧
    BlockSystem.updateHighlightPosition oneBlockSystem
        (some { x := 1 / 2, y := 1, z := 1 / 2 }) { x := 0, y := 1, z := 0 }
      = some { x := 0, y := 1, z := 0 } ∧
    BlockSystem.updateHighlightPosition oneBlockSystem
        (some { x := 1, y := 1 / 2, z := 1 / 2 }) { x := 1, y := 0, z := 0 }
      = some { x := 1, y := 0, z := 0 } := by
  have hn1 : BlockSystem.isUnitNormal { x := 0, y := 1, z := 0 } :=
    Or.inr (Or.inr (Or.inl rfl))
  have hn2 : BlockSystem.isUnitNormal { x := 1, y := 0, z := 0 } := Or.inl rfl
  have hface1 : BlockSystem.onCellFace origin { x := 0, y := 1, z := 0 }
      { x := 1 / 2, y := 1, z := 1 / 2 } := by
    norm_num [BlockSystem.onCellFace, origin]
  have hface2 : BlockSystem.onCellFace origin { x := 1, y := 0, z := 0 }
      { x := 1, y := 1 / 2, z := 1 / 2 } := by
    norm_num [BlockSystem.onCellFace, origin]
  have hocc1 : BlockSystem.hasBlock oneBlockSystem
      (BlockSystem.offsetBy origin { x := 0, y := 1, z := 0 }) = false := by
    rw [offsetBy_origin_up]
    exact hasBlock_oneBlockSystem_ne (by decide)
  have hocc2 : BlockSystem.hasBlock oneBlockSystem
      (BlockSystem.offsetBy origin { x := 1, y := 0, z := 0 }) = false := by
    rw [offsetBy_origin_px]
    exact hasBlock_oneBlockSystem_ne (by decide)
  have happ1 := c1_theorem oneBlockSystem Builder.initialState origin originNode
    { x := 1 / 2, y := 1, z := 1 / 2 } { x := 1 / 2, y := 1, z := 1 / 2 }
    { x := 0, y := 1, z := 0 } hn1 hface1 hocc1
  have happ2 := c1_theorem oneBlockSystem Builder.initialState origin originNode
    { x := 1, y := 1 / 2, z := 1 / 2 } { x := 1, y := 1 / 2, z := 1 / 2 }
    { x := 1, y := 0, z := 0 } hn2 hface2 hocc2
  refine ⟨hn1, hface1, ?_, ?_, ?_⟩
  · have h := happ1.1.1
    rwa [show originNode.position = origin from rfl, offsetBy_origin_up] at h
  · have h := happ1.2
    rwa [offsetBy_origin_up] at h
  · have h := happ2.2
    rwa [offsetBy_origin_px] at h

/-- Claim C2, as stated, is false on `BlockSystem.handleClick`: with the
origin cell occupied (its mesh rendered as the cube centred at the
origin), a secondary click hitting the point (-1/4, 1/2, 1/4) on that
block's top face floors the raw hit point to cell (-1,0,0), so the
removal fails and the record for (0,0,0) survives. -/
theorem c2_counterexample :
    BlockSystem.onRenderedFace (BlockSystem.meshPositionFor origin) { x := 0, y := 1, z := 0 }
      { x := -(1 / 4), y := 1 / 2, z := 1 / 4 } ∧
    BlockSystem.hasBlock oneBlockSystem origin = true ∧
    (BlockSystem.handleClick oneBlockSystem (some { x := -(1 / 4), y := 1 / 2, z := 1 / 4 })
        { x := 0, y := 1, z := 0 } true).1 = false ∧
    (BlockSystem.handleClick oneBlockSystem (some { x := -(1 / 4), y := 1 / 2, z := 1 / 4 })
        { x := 0, y := 1, z := 0 } true).2 = oneBlockSystem ∧
    BlockSystem.hasBlock (BlockSystem.handleClick oneBlockSystem
        (some { x := -(1 / 4), y := 1 / 2, z := 1 / 4 })
        { x := 0, y := 1, z := 0 } true).2 origin = true := by
  have hred : BlockSystem.handleClick oneBlockSystem
      (some { x := -(1 / 4), y := 1 / 2, z := 1 / 4 }) { x := 0, y := 1, z := 0 } true
      = BlockSystem.removeBlock oneBlockSystem
        (BlockSystem.worldToGrid { x := -(1 / 4), y := 1 / 2, z := 1 / 4 }) := rfl
  have hgrid : BlockSystem.worldToGrid { x := -(1 / 4), y := 1 / 2, z := 1 / 4 }
      = { x := -1, y := 0, z := 0 } :=
    worldToGrid_eval ⟨by norm_num, by norm_num⟩ ⟨by norm_num, by norm_num⟩
      ⟨by norm_num, by norm_num⟩
  have hmiss : BlockSystem.mapHas oneBlockSystem.blocks
      (BlockSystem.positionToKey { x := -1, y := 0, z := 0 }) = false := by
    have := hasBlock_oneBlockSystem_ne (c := { x := -1, y := 0, z := 0 }) (by decide)
    simpa [BlockSystem.hasBlock] using this
  have hrem : BlockSystem.removeBlock oneBlockSystem { x := -1, y := 0, z := 0 }
      = (false, oneBlockSystem) := by
    simp only [BlockSystem.removeBlock]
    rw [if_neg (by simp [hmiss])]
  have hfin : BlockSystem.handleClick oneBlockSystem
      (some { x := -(1 / 4), y := 1 / 2, z := 1 / 4 }) { x := 0, y := 1, z := 0 } true
      = (false, oneBlockSystem) := by
    rw [hred, hgrid, hrem]
  refine ⟨onRenderedFace_top_origin (by norm_num) (by norm_num) (by norm_num) (by norm_num),
    hasBlock_oneBlockSystem_origin, ?_, ?_, ?_⟩
  · rw [hfin]
  · rw [hfin]
  · rw [hfin]
    exact hasBlock_oneBlockSystem_origin

open Builder in
/-- Claim C2 (amended): in the current `main.js`, removal driven by a hit
object resolves the object through the parent walk to its owning placed
model and deletes exactly that model's occupancy record and scene
instance; in `BlockSystem.handleClick`, removal instead floors the raw
hit point, which targets the hit block's own cell only when the hit point
lies inside that cell's half-open volume (see the counterexample). -/
theorem c2_theorem (st : Builder.State) (object : Builder.SceneNode)
    (ancestors : List Builder.SceneNode) (b : Builder.SceneNode)
    (hwalk : Builder.walkUp object ancestors = b) (hb : b ∈ st.blocksGroup)
    (hkeys : (st.blocksGroup.map Builder.SceneNode.positionKey).Nodup)
    (hocc : st.occupiedPositions.Nodup)
    (hcorr : ∀ c ∈ st.blocksGroup,
      c.positionKey = some (BlockSystem.positionToKey c.position)) :
    BlockSystem.positionToKey b.position
        ∉ (Builder.removeBlock st object ancestors).occupiedPositions ∧
    (∀ k, k ∈ (Builder.removeBlock st object ancestors).occupiedPositions ↔
      (k ∈ st.occupiedPositions ∧ k ≠ BlockSystem.positionToKey b.position)) ∧
    (∀ c, c ∈ (Builder.removeBlock st object ancestors).blocksGroup ↔
      (c ∈ st.blocksGroup ∧ c ≠ b)) := by
  have hkey : b.positionKey = some (BlockSystem.positionToKey b.position) := hcorr b hb
  have hgnodup : st.blocksGroup.Nodup := List.Nodup.of_map _ hkeys
  have hremove : Builder.removeBlock st object ancestors =
      { st with
          occupiedPositions :=
            Builder.setDelete st.occupiedPositions (BlockSystem.positionToKey b.position)
          blocksGroup := st.blocksGroup.erase b } := by
    simp only [Builder.removeBlock, hwalk, hkey]
  rw [hremove]
  refine ⟨?_, ?_, ?_⟩
  · intro hmem
    exact ((hocc.mem_erase_iff.mp hmem).1) rfl
  · intro k
    rw [show Builder.setDelete st.occupiedPositions (BlockSystem.positionToKey b.position)
        = st.occupiedPositions.erase (BlockSystem.positionToKey b.position) from rfl,
      hocc.mem_erase_iff]
    exact ⟨fun h => ⟨h.2, h.1⟩, fun h => ⟨h.2, h.1⟩⟩
  · intro c
    rw [hgnodup.mem_erase_iff]
    exact ⟨fun h => ⟨h.2, h.1⟩, fun h => ⟨h.2, h.1⟩⟩

/-- Concrete run of C2 (amended): removing the origin block from a
one-block scene empties its record and leaves nothing else. -/
theorem c2_witness :
    BlockSystem.positionToKey originNode.position
        ∉ (Builder.removeBlock oneBlockBuilder originNode []).occupiedPositions ∧
    (∀ k, k ∈ (Builder.removeBlock oneBlockBuilder originNode []).occupiedPositions ↔
      (k ∈ oneBlockBuilder.occupiedPositions ∧
        k ≠ BlockSystem.positionToKey originNode.position)) ∧
    (∀ c, c ∈ (Builder.removeBlock oneBlockBuilder originNode []).blocksGroup ↔
      (c ∈ oneBlockBuilder.blocksGroup ∧ c ≠ originNode)) :=
  c2_theorem oneBlockBuilder originNode [] originNode rfl
    (by simp [oneBlockBuilder])
    (by simp [oneBlockBuilder])
    (by simp [oneBlockBuilder])
    (by intro c hc
        simp only [oneBlockBuilder, List.mem_singleton] at hc
        subst hc
        rfl)

/-- Claim C8: no-variant rejection without mutation — when no block model
is selected, or the selected model is not loaded, `addBlock` reports
failure (the code's `false` return with a console warning) and leaves the
occupancy set, the scene group, and every other field unchanged. -/
theorem c8_theorem (st : Builder.State) (pos : Vec3)
    (h : st.selectedModel = none ∨
      ∀ m, st.selectedModel = some m → m ∉ st.blockModels) :
    Builder.addBlock st pos = (false, st) := by
  rcases h with h | h
  · simp [Builder.addBlock, h]
  · cases hm : st.selectedModel with
    | none => simp [Builder.addBlock, hm]
    | some m => simp [Builder.addBlock, hm, h m hm]

/-- Concrete run of C8 from the freshly constructed state, where no model
is selected yet. -/
theorem c8_witness :
    Builder.initialState.selectedModel = none ∧
    Builder.addBlock Builder.initialState { x := 0, y := 0, z := 0 }
      = (false, Builder.initialState) :=
  ⟨rfl, c8_theorem Builder.initialState { x := 0, y := 0, z := 0 } (Or.inl rfl)⟩

/-- Claim C9: ground-plane pinning — a ray hit on the ground plane aims
the preview (and, in the earlier revision, the placement) at the cell
whose horizontal coordinates are the rounded hit point coordinates and
whose vertical coordinate is exactly the floor layer 0, regardless of the
hit point's vertical value. -/
theorem c9_theorem (st : Builder.State) (point : Vec3) :
    (Builder.updatePreview st (some (Builder.RayHit.ground point))).previewPos
        = { x := (jsRound point.x : ℚ), y := 0, z := (jsRound point.z : ℚ) } ∧
    (Builder.updatePreview st (some (Builder.RayHit.ground point))).previewPos.y = 0 ∧
    (Builder.updatePreview st (some (Builder.RayHit.ground point))).previewVisible = true ∧
    LegacyBuilder.groundPlacementCell point
        = { x := jsRound point.x, y := 0, z := jsRound point.z } ∧
    (LegacyBuilder.groundPlacementCell point).y = 0 := by
  refine ⟨?_, ?_, by simp [Builder.updatePreview], ?_, ?_⟩
  · simp [Builder.updatePreview, jsRound_zero]
  · simp [Builder.updatePreview, jsRound_zero]
  · simp [LegacyBuilder.groundPlacementCell, jsRound_zero]
  · simp [LegacyBuilder.groundPlacementCell, jsRound_zero]

namespace Builder

lemma updatePreview_fields (st : State) (hit : Option RayHit) :
    (updatePreview st hit).occupiedPositions = st.occupiedPositions ∧
    (updatePreview st hit).blocksGroup = st.blocksGroup ∧
    (updatePreview st hit).isDragging = st.isDragging ∧
    (updatePreview st hit).dragStartX = st.dragStartX ∧
    (updatePreview st hit).dragStartY = st.dragStartY ∧
    (updatePreview st hit).dragThreshold = st.dragThreshold ∧
    (updatePreview st hit).clickedOnUI = st.clickedOnUI := by
  cases hit with
  | none => simp [updatePreview]
  | some h => cases h <;> simp [updatePreview]

lemma onMouseMove_fields (st : State) (e : MouseEvent) (hit : Option RayHit) :
    (onMouseMove st e hit).occupiedPositions = st.occupiedPositions ∧
    (onMouseMove st e hit).blocksGroup = st.blocksGroup ∧
    (onMouseMove st e hit).dragStartX = st.dragStartX ∧
    (onMouseMove st e hit).dragStartY = st.dragStartY ∧
    (onMouseMove st e hit).dragThreshold = st.dragThreshold ∧
    (onMouseMove st e hit).clickedOnUI = st.clickedOnUI := by
  simp only [onMouseMove]
  split
  · have h := updatePreview_fields { st with isDragging := true } hit
    exact ⟨h.1, h.2.1, h.2.2.2.1, h.2.2.2.2.1, h.2.2.2.2.2.1, h.2.2.2.2.2.2⟩
  · have h := updatePreview_fields st hit
    exact ⟨h.1, h.2.1, h.2.2.2.1, h.2.2.2.2.1, h.2.2.2.2.2.1, h.2.2.2.2.2.2⟩

lemma onMouseMove_isDragging_mono (st : State) (e : MouseEvent) (hit : Option RayHit)
    (h : st.isDragging = true) : (onMouseMove st e hit).isDragging = true := by
  simp only [onMouseMove]
  rw [if_neg (by simp [h])]
  rw [(updatePreview_fields st hit).2.2.1, h]

lemma onMouseMove_isDragging_trigger (st : State) (e : MouseEvent) (hit : Option RayHit)
    (h : |e.clientX - st.dragStartX| > st.dragThreshold ∨
      |e.clientY - st.dragStartY| > st.dragThreshold) :
    (onMouseMove st e hit).isDragging = true := by
  by_cases hd : st.isDragging = true
  · exact onMouseMove_isDragging_mono st e hit hd
  · have hd' : st.isDragging = false := by
      cases hv : st.isDragging
      · rfl
      · exact absurd hv hd
    simp only [onMouseMove]
    rw [if_pos ⟨hd', h⟩]
    exact (updatePreview_fields { st with isDragging := true } hit).2.2.1

lemma runMoves_fields (st : State) (moves : List (MouseEvent × Option RayHit)) :
    (runMoves st moves).occupiedPositions = st.occupiedPositions ∧
    (runMoves st moves).blocksGroup = st.blocksGroup ∧
    (runMoves st moves).dragStartX = st.dragStartX ∧
    (runMoves st moves).dragStartY = st.dragStartY ∧
    (runMoves st moves).dragThreshold = st.dragThreshold ∧
    (runMoves st moves).clickedOnUI = st.clickedOnUI := by
  induction moves generalizing st with
  | nil => exact ⟨rfl, rfl, rfl, rfl, rfl, rfl⟩
  | cons mh mt ih =>
    obtain ⟨e, hit⟩ := mh
    have h1 := onMouseMove_fields st e hit
    have h2 := ih (onMouseMove st e hit)
    exact ⟨h2.1.trans h1.1, h2.2.1.trans h1.2.1, h2.2.2.1.trans h1.2.2.1,
      h2.2.2.2.1.trans h1.2.2.2.1, h2.2.2.2.2.1.trans h1.2.2.2.2.1,
      h2.2.2.2.2.2.trans h1.2.2.2.2.2⟩

lemma runMoves_isDragging_mono (st : State) (moves : List (MouseEvent × Option RayHit))
    (h : st.isDragging = true) : (runMoves st moves).isDragging = true := by
  induction moves generalizing st with
  | nil => exact h
  | cons mh mt ih =>
    obtain ⟨e, hit⟩ := mh
    exact ih (onMouseMove st e hit) (onMouseMove_isDragging_mono st e hit h)

lemma runMoves_isDragging_of_exceed (st : State)
    (moves : List (MouseEvent × Option RayHit))
    (h : ∃ m ∈ moves, |m.1.clientX - st.dragStartX| > st.dragThreshold ∨
      |m.1.clientY - st.dragStartY| > st.dragThreshold) :
    (runMoves st moves).isDragging = true := by
  induction moves generalizing st with
  | nil => simp at h
  | cons mh mt ih =>
    obtain ⟨e, hit⟩ := mh
    obtain ⟨m, hm, hcond⟩ := h
    rcases List.mem_cons.mp hm with heq | hmem
    · subst heq
      exact runMoves_isDragging_mono _ mt (onMouseMove_isDragging_trigger st e hit hcond)
    · have hf := onMouseMove_fields st e hit
      apply ih (onMouseMove st e hit)
      refine ⟨m, hmem, ?_⟩
      rw [hf.2.2.1, hf.2.2.2.1, hf.2.2.2.2.1]
      exact hcond

lemma onMouseUp_gated (st : State) (e : MouseEvent)
    (h : st.isDragging = true ∨ st.clickedOnUI = true) :
    (onMouseUp st e).occupiedPositions = st.occupiedPositions ∧
    (onMouseUp st e).blocksGroup = st.blocksGroup := by
  have hcond : ¬ (e.button = 0 ∧ st.isDragging = false ∧ st.clickedOnUI = false) := by
    rcases h with h | h <;> simp [h]
  simp only [onMouseUp]
  rw [if_neg hcond]
  exact ⟨rfl, rfl⟩

lemma onMouseDown_primary (st : State) (e : MouseEvent) (hbtn : e.button = 0)
    (removalHit : Option (SceneNode × List SceneNode)) :
    onMouseDown st e removalHit =
      { st with
          clickedOnUI := e.targetOnUI
          dragStartX := e.clientX
          dragStartY := e.clientY
          isDragging := false } := by
  simp [onMouseDown, hbtn]

end Builder

/-- Claim C10: drag gating of placement — a primary-button gesture whose
pointer, at some move between the down and the up, strays beyond the drag
threshold from the gesture start on either screen axis, or which started
on the palette UI, never mutates the occupancy set or the placed blocks,
whatever target cells the intervening moves previewed. -/
theorem c10_theorem (st0 : Builder.State) (edown : Builder.MouseEvent)
    (removalHit : Option (Builder.SceneNode × List Builder.SceneNode))
    (moves : List (Builder.MouseEvent × Option Builder.RayHit)) (eup : Builder.MouseEvent)
    (hbtn : edown.button = 0)
    (hgate : (∃ m ∈ moves, |m.1.clientX - edown.clientX| > st0.dragThreshold ∨
        |m.1.clientY - edown.clientY| > st0.dragThreshold) ∨ edown.targetOnUI = true) :
    Builder.State.occupiedPositions
        (Builder.onMouseUp
          (Builder.runMoves (Builder.onMouseDown st0 edown removalHit) moves) eup)
      = st0.occupiedPositions ∧
    Builder.State.blocksGroup
        (Builder.onMouseUp
          (Builder.runMoves (Builder.onMouseDown st0 edown removalHit) moves) eup)
      = st0.blocksGroup := by
  rw [Builder.onMouseDown_primary st0 edown hbtn removalHit]
  have hrun := Builder.runMoves_fields
    { st0 with
        clickedOnUI := edown.targetOnUI
        dragStartX := edown.clientX
        dragStartY := edown.clientY
        isDragging := false } moves
  have hgated : (Builder.runMoves
      { st0 with
          clickedOnUI := edown.targetOnUI
          dragStartX := edown.clientX
          dragStartY := edown.clientY
          isDragging := false } moves).isDragging = true ∨
      (Builder.runMoves
      { st0 with
          clickedOnUI := edown.targetOnUI
          dragStartX := edown.clientX
          dragStartY := edown.clientY
          isDragging := false } moves).clickedOnUI = true := by
    rcases hgate with hdrag | hui
    · exact Or.inl (Builder.runMoves_isDragging_of_exceed _ moves hdrag)
    · refine Or.inr ?_
      rw [hrun.2.2.2.2.2]
      exact hui
  have hup := Builder.onMouseUp_gated _ eup hgated
  exact ⟨hup.1.trans hrun.1, hup.2.trans hrun.2.1⟩

/-- Concrete run of C10: pointer down at (10,10), a move to
(10 + threshold + 1, 10) = (16,10), pointer up there — nothing is
placed. -/
theorem c10_witness :
    ({ clientX := 10, clientY := 10, button := 0, targetOnUI := false } :
        Builder.MouseEvent).button = 0 ∧
    |(16 : ℚ) - 10| > Builder.initialState.dragThreshold ∧
    Builder.State.occupiedPositions
        (Builder.onMouseUp
          (Builder.runMoves
            (Builder.onMouseDown Builder.initialState
              { clientX := 10, clientY := 10, button := 0, targetOnUI := false } none)
            [({ clientX := 16, clientY := 10, button := 0, targetOnUI := false }, none)])
          { clientX := 16, clientY := 10, button := 0, targetOnUI := false })
      = Builder.initialState.occupiedPositions ∧
    Builder.State.blocksGroup
        (Builder.onMouseUp
          (Builder.runMoves
            (Builder.onMouseDown Builder.initialState
              { clientX := 10, clientY := 10, button := 0, targetOnUI := false } none)
            [({ clientX := 16, clientY := 10, button := 0, targetOnUI := false }, none)])
          { clientX := 16, clientY := 10, button := 0, targetOnUI := false })
      = Builder.initialState.blocksGroup := by
  have h6 : |(16 : ℚ) - 10| > Builder.initialState.dragThreshold := by
    rw [show ((16 : ℚ) - 10) = 6 by norm_num, abs_of_nonneg (by norm_num : (0 : ℚ) ≤ 6)]
    show (5 : ℚ) < 6
    norm_num
  have happ := c10_theorem Builder.initialState
    { clientX := 10, clientY := 10, button := 0, targetOnUI := false } none
    [({ clientX := 16, clientY := 10, button := 0, targetOnUI := false }, none)]
    { clientX := 16, clientY := 10, button := 0, targetOnUI := false } rfl
    (Or.inl ⟨({ clientX := 16, clientY := 10, button := 0, targetOnUI := false }, none),
      List.mem_cons_self _ _, Or.inl h6⟩)
  exact ⟨rfl, h6, happ.1, happ.2⟩

namespace Builder

lemma inv_of_fields {st st' : State}
    (h1 : st'.occupiedPositions = st.occupiedPositions)
    (h2 : st'.blocksGroup = st.blocksGroup) (h : OccupancyInv st) : OccupancyInv st' := by
  unfold OccupancyInv at h ⊢
  rw [h1, h2]
  exact h

lemma occupancyInv_initial : OccupancyInv initialState := by
  refine ⟨?_, ?_, ?_, ?_, ?_⟩ <;> simp [initialState]

lemma occupancyInv_addBlock (st : State) (pos : Vec3) (h : OccupancyInv st) :
    OccupancyInv (addBlock st pos).2 := by
  obtain ⟨hiff, hkeys, hnodup, hlen, hcorr⟩ := h
  cases hm : st.selectedModel with
  | none =>
    simp only [addBlock, hm]
    exact ⟨hiff, hkeys, hnodup, hlen, hcorr⟩
  | some m =>
    simp only [addBlock, hm]
    by_cases hload : m ∈ st.blockModels
    · rw [if_pos hload]
      by_cases hocc : getKey pos ∈ st.occupiedPositions
      · rw [if_pos hocc]
        exact ⟨hiff, hkeys, hnodup, hlen, hcorr⟩
      · have hnotin : some (getKey pos) ∉ st.blocksGroup.map SceneNode.positionKey := by
          intro hmem
          obtain ⟨b, hb, hbk⟩ := List.mem_map.mp hmem
          exact hocc ((hiff (getKey pos)).mpr ⟨b, hb, hbk⟩)
        rw [if_neg hocc]
        simp only [setAdd]
        rw [if_neg hocc]
        refine ⟨?_, ?_, ?_, ?_, ?_⟩
        · intro k
          simp only [List.mem_append, List.mem_singleton]
          constructor
          · rintro (hk | rfl)
            · obtain ⟨b, hb, hbk⟩ := (hiff k).mp hk
              exact ⟨b, Or.inl hb, hbk⟩
            · exact ⟨⟨{ x := jsRound pos.x, y := jsRound pos.y, z := jsRound pos.z },
                some (getKey pos)⟩, Or.inr rfl, rfl⟩
          · rintro ⟨b, hb | rfl, hbk⟩
            · exact Or.inl ((hiff k).mpr ⟨b, hb, hbk⟩)
            · exact Or.inr (Option.some_inj.mp hbk).symm
        · rw [List.map_append]
          simp only [List.map_cons, List.map_nil]
          rw [List.nodup_append]
          exact ⟨hkeys, List.nodup_singleton _, by simpa using hnotin⟩
        · rw [List.nodup_append]
          exact ⟨hnodup, List.nodup_singleton _, by simpa using hocc⟩
        · simp [hlen]
        · intro b hb
          rcases List.mem_append.mp hb with hb | hb
          · exact hcorr b hb
          · rw [List.mem_singleton.mp hb]
            rfl
    · rw [if_neg hload]
      exact ⟨hiff, hkeys, hnodup, hlen, hcorr⟩

lemma occupancyInv_removeBlock (st : State) (object : SceneNode)
    (ancestors : List SceneNode) (hmem : walkUp object ancestors ∈ st.blocksGroup)
    (h : OccupancyInv st) : OccupancyInv (removeBlock st object ancestors) := by
  obtain ⟨hiff, hkeys, hnodup, hlen, hcorr⟩ := h
  have hkey : (walkUp object ancestors).positionKey
      = some (BlockSystem.positionToKey (walkUp object ancestors).position) :=
    hcorr _ hmem
  have hgnodup : st.blocksGroup.Nodup := List.Nodup.of_map _ hkeys
  have hrm : removeBlock st object ancestors =
      { st with
          occupiedPositions := st.occupiedPositions.erase
            (BlockSystem.positionToKey (walkUp object ancestors).position)
          blocksGroup := st.blocksGroup.erase (walkUp object ancestors) } := by
    simp only [removeBlock, hkey, setDelete]
  rw [hrm]
  have hkbocc : BlockSystem.positionToKey (walkUp object ancestors).position
      ∈ st.occupiedPositions := (hiff _).mpr ⟨_, hmem, hkey⟩
  refine ⟨?_, ?_, ?_, ?_, ?_⟩
  · intro k
    rw [hnodup.mem_erase_iff]
    constructor
    · rintro ⟨hne, hk⟩
      obtain ⟨c, hc, hck⟩ := (hiff k).mp hk
      have hcb : c ≠ walkUp object ancestors := by
        rintro rfl
        exact hne (Option.some_inj.mp (hkey.symm.trans hck)).symm
      exact ⟨c, (hgnodup.mem_erase_iff).mpr ⟨hcb, hc⟩, hck⟩
    · rintro ⟨c, hc, hck⟩
      obtain ⟨hcb, hcg⟩ := hgnodup.mem_erase_iff.mp hc
      refine ⟨?_, (hiff k).mpr ⟨c, hcg, hck⟩⟩
      rintro rfl
      exact hcb (List.inj_on_of_nodup_map hkeys hcg hmem (hck.trans hkey.symm))
  · exact hkeys.sublist ((List.erase_sublist _ st.blocksGroup).map _)
  · exact hnodup.erase _
  · rw [List.length_erase_of_mem hkbocc, List.length_erase_of_mem hmem, hlen]
  · intro c hc
    exact hcorr c (List.mem_of_mem_erase hc)

lemma occupancyInv_onMouseDown_none (st : State) (e : MouseEvent) (h : OccupancyInv st) :
    OccupancyInv (onMouseDown st e none) := by
  unfold onMouseDown
  split <;> exact inv_of_fields rfl rfl h

lemma occupancyInv_onMouseDown_some (st : State) (e : MouseEvent) (object : SceneNode)
    (ancestors : List SceneNode) (hmem : walkUp object ancestors ∈ st.blocksGroup)
    (h : OccupancyInv st) :
    OccupancyInv (onMouseDown st e (some (object, ancestors))) := by
  unfold onMouseDown
  split
  · exact occupancyInv_removeBlock _ object ancestors hmem (inv_of_fields rfl rfl h)
  · exact inv_of_fields rfl rfl h

lemma occupancyInv_onMouseMove (st : State) (e : MouseEvent) (hit : Option RayHit)
    (h : OccupancyInv st) : OccupancyInv (onMouseMove st e hit) :=
  inv_of_fields (onMouseMove_fields st e hit).1 (onMouseMove_fields st e hit).2.1 h

lemma occupancyInv_onMouseUp (st : State) (e : MouseEvent) (h : OccupancyInv st) :
    OccupancyInv (onMouseUp st e) := by
  simp only [onMouseUp]
  split
  · split
    · exact inv_of_fields rfl rfl (occupancyInv_addBlock st st.previewPos h)
    · exact inv_of_fields rfl rfl h
  · exact inv_of_fields rfl rfl h

lemma occupancyInv_onKeyDown (st : State) (isResetKey : Bool) (h : OccupancyInv st) :
    OccupancyInv (onKeyDown st isResetKey) := by
  unfold onKeyDown
  split
  · refine ⟨?_, ?_, ?_, ?_, ?_⟩ <;> simp
  · exact h

lemma occupancyInv_step {st st' : State} (hs : Step st st') (h : OccupancyInv st) :
    OccupancyInv st' := by
  cases hs with
  | pointerDownNone e => exact occupancyInv_onMouseDown_none _ e h
  | pointerDownHit e object ancestors hmem =>
    exact occupancyInv_onMouseDown_some _ e object ancestors hmem h
  | pointerMove e hit => exact occupancyInv_onMouseMove _ e hit h
  | pointerUp e => exact occupancyInv_onMouseUp _ e h
  | keyDown isResetKey => exact occupancyInv_onKeyDown _ isResetKey h
  | modelLoaded m => exact inv_of_fields rfl rfl h
  | modelSelected m => exact inv_of_fields rfl rfl h

end Builder

/-- Claim C5: occupancy-map consistency invariant — in every state the
application can reach from its initial state by pointer events, the reset
key, model loads and model selections, a key is in the occupancy set iff
a placed model in the scene owns it, placed models carry pairwise
distinct keys matching their cells, and the set's size equals the number
of placed models. -/
theorem c5_theorem (st : Builder.State) (h : Builder.Reachable st) :
    Builder.OccupancyInv st := by
  induction h with
  | init => exact Builder.occupancyInv_initial
  | step hr hs ih => exact Builder.occupancyInv_step hs ih

/-- Concrete run of C5 at the initial state. -/
theorem c5_witness : Builder.OccupancyInv Builder.initialState :=
  c5_theorem Builder.initialState Builder.Reachable.init
